import Mathlib

/-!
Formal model of the questionnaire visualizer (`questionnaire_visualizer_updated.py`).

The core logic of the program — the markdown parser, the summary report, the
similarity matcher, the option alignment used by the comparison charts, and the
weighted rating average — is embedded shallowly below.  Python strings are
modelled as lists of characters, Python 3.7+ dicts as insertion-ordered
association lists with unique keys, and the external `jieba.cut` tokenizer as an
explicit function parameter.  Similarities (Python floats that are ratios of
small integer cardinalities compared against the literal `0.6`) are modelled as
rationals; for the cardinalities reachable here the float comparison against 0.6
agrees with the exact rational comparison against 3/5.
-/

namespace Questionnaire

/-- A piece of text, modelled as its list of characters (Python `str`). -/
abbrev Str := List Char

/-- Whitespace characters removed by Python `str.strip()` (ASCII variants; the
input lines contain no newline since the document was split on them). -/
def isPySpace (c : Char) : Bool :=
  c = ' ' || c = '\t' || c = '\n' || c = '\r' || c = Char.ofNat 11 || c = Char.ofNat 12

/-- Python `str.strip()`: drop whitespace from both ends. -/
def pyStrip (s : Str) : Str :=
  ((s.dropWhile isPySpace).reverse.dropWhile isPySpace).reverse

/-- Python `str.rstrip('\t')`: drop trailing tab characters. -/
def rstripTab (s : Str) : Str :=
  (s.reverse.dropWhile (fun c => c = '\t')).reverse

/-- Python substring containment `pat in s`. -/
def containsSub (s pat : Str) : Bool :=
  s.tails.any (fun t => pat.isPrefixOf t)

/-- Header test of source lines 56 and 96:
`line.startswith('问题') and '【' in line and '】' in line`. -/
def isQuestionHeader (line : Str) : Bool :=
  (['问', '题'].isPrefixOf line) && line.contains '【' && line.contains '】'

/-- The four recognized question types (values of `self.question_types`). -/
inductive QType
  | single_choice
  | multiple_choice
  | rating
  | fill_in_blank
deriving DecidableEq

/-- The `question_types` table (source lines 32-37): Chinese label paired with
its type, in dict insertion order. -/
def question_types : List (Str × QType) :=
  [(['单', '选', '题'], QType.single_choice),
   (['多', '选', '题'], QType.multiple_choice),
   (['评', '分', '题'], QType.rating),
   (['填', '空', '题'], QType.fill_in_blank)]

/-- Type extraction of source lines 62-66: the first label of the table with
the bracketed label contained in the line. -/
def findQType (line : Str) : Option QType :=
  (question_types.find? (fun p => containsSub line ('【' :: p.1 ++ ['】']))).map (fun p => p.2)

/-- Everything after the first occurrence of `c`: Python `s.split(c, 1)[1]`
(total here; call sites guard on `c in s`). -/
def afterFirst (c : Char) (s : Str) : Str :=
  (s.dropWhile (fun x => x != c)).drop 1

/-- Numeric value of a digit string, most significant digit first. -/
def digitsToNat (s : Str) : Nat :=
  s.foldl (fun acc c => 10 * acc + (c.toNat - '0'.toNat)) 0

/-- Python `int(s)` with `ValueError` as `none`: surrounding whitespace is
stripped by `int` itself, then an optional sign followed by one or more ASCII
digits. -/
def pyInt (s : Str) : Option Int :=
  let t := pyStrip s
  match t with
  | '-' :: rest =>
      if rest ≠ [] ∧ rest.all Char.isDigit then some (-(digitsToNat rest : Int)) else none
  | '+' :: rest =>
      if rest ≠ [] ∧ rest.all Char.isDigit then some ((digitsToNat rest : Int)) else none
  | _ =>
      if t ≠ [] ∧ t.all Char.isDigit then some ((digitsToNat t : Int)) else none

/-- The regex search of source line 114, `re.search(r': (\d+)', s)`: the
leftmost position where a colon is followed by a space and at least one digit;
the captured group is the maximal digit run after that space. -/
def searchColonCount : Str → Option Nat
  | [] => none
  | ':' :: rest =>
    (match rest with
     | ' ' :: rest2 =>
       let ds := rest2.takeWhile Char.isDigit
       if ds ≠ [] then some (digitsToNat ds) else searchColonCount rest
     | _ => searchColonCount rest)
  | _ :: rest => searchColonCount rest

/-- Data-line handling for the non-FillInBlank types (source lines 111-118):
the line must contain a colon; the option label is the trimmed text before the
first colon, the count is the number found by the regex search.  `none` means
the line is skipped without being recorded. -/
def parseOptionLine (dl : Str) : Option (Str × Nat) :=
  if dl.contains ':' then
    match searchColonCount dl with
    | some n => some (pyStrip (dl.takeWhile (fun c => c != ':')), n)
    | none => none
  else none

/-- One parsed question: the dict built at source lines 78-83.  The Python key
`type` is called `qtype` here; `data` holds the counts. -/
structure Question where
  text : Str
  qtype : QType
  options : List Str
  data : List Int
deriving DecidableEq

/-- A parsed survey: a Python 3.7+ `dict` from question text to question,
modelled as an insertion-ordered association list with unique keys. -/
abbrev Survey := List (Str × Question)

/-- Python `d[k] = v` on a dict: replace in place when the key is present,
otherwise append at the end. -/
def dictInsert (d : Survey) (k : Str) (v : Question) : Survey :=
  if d.any (fun p => p.1 = k) then
    d.map (fun p => if p.1 = k then (k, v) else p)
  else d ++ [(k, v)]

/-- Commit the in-progress question into the mapping (source lines 58-59 and
125-126). -/
def saveCur (cur : Option (Str × Question)) (acc : Survey) : Survey :=
  match cur with
  | none => acc
  | some (t, q) => dictInsert acc t q

/-- The nested data-line scan of source lines 86-120, recursing on the list of
remaining lines instead of the cursor `i`.  Returns the lines left over for the
outer scan (the unconsumed suffix, starting with the next header when the scan
stopped on one) together with the updated question. -/
def parseDataLines (t : QType) : List Str → Question → List Str × Question
  | [], q => ([], q)
  | l :: rest, q =>
    let dl := pyStrip l
    if dl = [] then parseDataLines t rest q
    else if isQuestionHeader dl then (l :: rest, q)
    else if t = QType.fill_in_blank then
      (rest, { q with data := [(pyInt dl).getD 0] })
    else
      match parseOptionLine dl with
      | some (o, n) => parseDataLines t rest
          { q with options := q.options ++ [o], data := q.data ++ [(n : Int)] }
      | none => parseDataLines t rest q

theorem parseDataLines_length_le (t : QType) (ls : List Str) (q : Question) :
    (parseDataLines t ls q).1.length ≤ ls.length := by
  induction ls generalizing q with
  | nil => simp [parseDataLines]
  | cons l rest ih =>
    simp only [parseDataLines]
    split
    · exact Nat.le_succ_of_le (ih q)
    · split
      · exact Nat.le_refl _
      · split
        · exact Nat.le_succ _
        · split
          · exact Nat.le_succ_of_le (ih _)
          · exact Nat.le_succ_of_le (ih q)

/-- The outer line scan of source lines 52-126, recursing on the list of
remaining lines.  `cur` is `current_question` paired with
`current_question_text` (`none` initially); `acc` is the `questions` dict.
When a header's bracketed tag matches no known label, the line is consumed and
`cur` is kept as it is (source lines 68-70, after the save of lines 58-59). -/
def parseLoop : List Str → Option (Str × Question) → Survey → Survey
  | [], cur, acc => saveCur cur acc
  | l :: rest, cur, acc =>
    let line := pyStrip l
    if isQuestionHeader line then
      let acc1 := saveCur cur acc
      match findQType line with
      | none => parseLoop rest cur acc1
      | some t =>
        let qtext := rstripTab (pyStrip (if line.contains '】' then afterFirst '】' line else line))
        let pr := parseDataLines t rest ⟨qtext, t, [], []⟩
        parseLoop pr.1 (some (qtext, pr.2)) acc1
    else parseLoop rest cur acc
termination_by ls _ _ => ls.length
decreasing_by
  · simp
  · exact Nat.lt_succ_of_le (parseDataLines_length_le _ _ _)
  · simp

/-- Python `md_content.split('\n')`. -/
def splitLines (s : Str) : List Str :=
  s.foldr (fun c acc =>
    if c = '\n' then [] :: acc
    else match acc with
      | [] => [[c]]
      | a :: rest => (c :: a) :: rest) [[]]

/-- The parser `parse_md_metadata_with_data` (source lines 42-128). -/
def parse_md_metadata_with_data (md_content : Str) : Survey :=
  parseLoop (splitLines md_content) none []

/-- Fuel-counted version of `parseDataLines`: the fuel is a bound on the number
of loop iterations, decremented once per consumed line; `none` means the fuel
ran out. -/
def parseDataLinesF (t : QType) : Nat → List Str → Question → Option (List Str × Question)
  | 0, _, _ => none
  | _ + 1, [], q => some ([], q)
  | fuel + 1, l :: rest, q =>
    let dl := pyStrip l
    if dl = [] then parseDataLinesF t fuel rest q
    else if isQuestionHeader dl then some (l :: rest, q)
    else if t = QType.fill_in_blank then
      some (rest, { q with data := [(pyInt dl).getD 0] })
    else
      match parseOptionLine dl with
      | some (o, n) => parseDataLinesF t fuel rest
          { q with options := q.options ++ [o], data := q.data ++ [(n : Int)] }
      | none => parseDataLinesF t fuel rest q

/-- Fuel-counted version of `parseLoop`. -/
def parseLoopF : Nat → List Str → Option (Str × Question) → Survey → Option Survey
  | 0, _, _, _ => none
  | _ + 1, [], cur, acc => some (saveCur cur acc)
  | fuel + 1, l :: rest, cur, acc =>
    let line := pyStrip l
    if isQuestionHeader line then
      let acc1 := saveCur cur acc
      match findQType line with
      | none => parseLoopF fuel rest cur acc1
      | some t =>
        let qtext := rstripTab (pyStrip (if line.contains '】' then afterFirst '】' line else line))
        match parseDataLinesF t fuel rest ⟨qtext, t, [], []⟩ with
        | none => none
        | some pr => parseLoopF fuel pr.1 (some (qtext, pr.2)) acc1
    else parseLoopF fuel rest cur acc

/-- The numeric fields of the summary dict built at source lines 437-442. -/
structure Summary where
  total_responses : Int
  analyzed_questions : Nat
  skipped_questions : Nat
deriving DecidableEq

/-- One iteration of the loop at source lines 427-435, on the accumulator
(total_responses, analyzed_questions, skipped_questions). -/
def summaryStep (st : Int × Nat × Nat) (p : Str × Question) : Int × Nat × Nat :=
  if p.2.qtype = QType.fill_in_blank then
    (if p.2.data ≠ [] then max st.1 (p.2.data.headD 0) else st.1, st.2.1, st.2.2 + 1)
  else
    (if p.2.data ≠ [] then max st.1 p.2.data.sum else st.1, st.2.1 + 1, st.2.2)

/-- `generate_summary_report` (source lines 418-444): `None` when the survey is
empty, otherwise one pass over the question values (insertion order)
accumulating the maximal response-count candidate and the analyzed/skipped
tallies. -/
def generate_summary_report (qs : Survey) : Option Summary :=
  if qs = [] then none
  else
    let st := qs.foldl summaryStep ((0 : Int), (0 : Nat), (0 : Nat))
    some ⟨st.1, st.2.1, st.2.2⟩

/-- The per-question `total_responses` candidate, as the spec words it: the
single stored count of a FillInBlank question (0 when nothing is stored), the
sum of the counts otherwise. -/
def summaryCandidate (q : Question) : Int :=
  if q.qtype = QType.fill_in_blank then q.data.headD 0 else q.data.sum

/-- `calculate_text_similarity` (source lines 473-485), with the external
tokenizer `jieba.cut` as an explicit parameter `seg`.  The Python float ratio
of small set cardinalities is modelled exactly as a rational. -/
def calculate_text_similarity (seg : Str → List Str) (text1 text2 : Str) : ℚ :=
  let words1 := (seg text1).toFinset
  let words2 := (seg text2).toFinset
  if words1 = ∅ ∨ words2 = ∅ then 0
  else ((words1 ∩ words2).card : ℚ) / ((words1 ∪ words2).card : ℚ)

/-- One entry of `matching_pairs` (the dict built at source lines 460-467). -/
structure MatchPair where
  question1 : Str
  question2 : Str
  qtype : QType
  similarity : ℚ
  data1 : Question
  data2 : Question
deriving DecidableEq

/-- The nested loops of source lines 453-467 before sorting: candidate pairs in
encounter order (survey1 outer loop, survey2 inner loop). -/
def matchingPairsUnsorted (seg : Str → List Str) (qs cqs : Survey) : List MatchPair :=
  qs.flatMap (fun p1 =>
    cqs.filterMap (fun p2 =>
      if p1.2.qtype = p2.2.qtype ∧ p1.2.qtype ≠ QType.fill_in_blank then
        let similarity := calculate_text_similarity seg p1.1 p2.1
        if similarity > 3/5 then
          some ⟨p1.1, p2.1, p1.2.qtype, similarity, p1.2, p2.2⟩
        else none
      else none))

/-- Insertion step of a stable descending sort on the similarity key: the new
element (originally earlier) passes over strictly greater similarities and
lands before the first element whose similarity is not greater. -/
def insertBySimDesc (x : MatchPair) : List MatchPair → List MatchPair
  | [] => [x]
  | y :: ys => if x.similarity < y.similarity then y :: insertBySimDesc x ys else x :: y :: ys

/-- Python `matching_pairs.sort(key=lambda x: x['similarity'], reverse=True)`
(source line 470).  Python's sort is stable and a stable sort's output is
uniquely determined by the input order and the key, so insertion sort is a
faithful model. -/
def sortBySimDesc (l : List MatchPair) : List MatchPair :=
  l.foldr insertBySimDesc []

/-- `find_matching_questions` (source lines 446-471). -/
def find_matching_questions (seg : Str → List Str) (qs cqs : Survey) : List MatchPair :=
  if qs = [] ∨ cqs = [] then []
  else sortBySimDesc (matchingPairsUnsorted seg qs cqs)

/-- Python `list(set(l))`: the members of `l` as a duplicate-free list.  Set
iteration order is unspecified in Python; first-occurrence order is one
faithful enumeration, and every property claimed of the result is
order-insensitive. -/
def pySetList (l : List Str) : List Str := l.dedup

/-- The option-alignment logic shared verbatim by
`create_single_choice_comparison` (source lines 502-522) and
`create_multiple_choice_comparison` (source lines 599-619): the union of both
sides' options, and for each united option the count found at
`data['data'][data['options'].index(option)]` on each side, or 0 when the
option is absent from that side.  (`getD`'s default is never used when
`options` and `data` are parallel, as they are for parsed questions.) -/
def alignOptions (opts1 : List Str) (data1 : List Int) (opts2 : List Str) (data2 : List Int) :
    List Str × List Int × List Int :=
  let all_options := pySetList (opts1 ++ opts2)
  let counts1 := all_options.map (fun o =>
    if o ∈ opts1 then data1.getD (opts1.indexOf o) 0 else 0)
  let counts2 := all_options.map (fun o =>
    if o ∈ opts2 then data2.getD (opts2.indexOf o) 0 else 0)
  (all_options, counts1, counts2)

/-- One iteration of the accumulation loop at source lines 1270-1276, on the
accumulator (total_score, total_count). -/
def ratingStep (st : Int × Int) (oc : Str × Int) : Int × Int :=
  match pyInt oc.1 with
  | some score => (st.1 + score * oc.2, st.2 + oc.2)
  | none => st

/-- The weighted rating average computed in `main` (source lines 1266-1279):
fold over the zipped (option, count) pairs, including only options that parse
as integers; the average is displayed only when the included total count is
positive, and is `none` (omitted) otherwise. -/
def weightedRatingAverage (options : List Str) (data : List Int) : Option ℚ :=
  let st := (options.zip data).foldl ratingStep ((0 : Int), (0 : Int))
  if st.2 > 0 then some ((st.1 : ℚ) / (st.2 : ℚ)) else none

/-- The (option, count) pairs of a rating question whose label parses as an
integer rating: the pairs included in the weighted average. -/
def includedRatingPairs (options : List Str) (data : List Int) : List (Int × Int) :=
  (options.zip data).filterMap (fun oc => (pyInt oc.1).map (fun r => (r, oc.2)))

/-- The data region of a question block: the lines before the next header. -/
def dataRegion (ls : List Str) : List Str :=
  ls.takeWhile (fun l => !isQuestionHeader (pyStrip l))

/-- The (amended) data-model shape of a parsed question: options and counts are
parallel with non-negative counts for the three analyzable types; a FillInBlank
question has no options and at most one stored count. -/
def ShapeInv (q : Question) : Prop :=
  (q.qtype ≠ QType.fill_in_blank →
      q.options.length = q.data.length ∧ ∀ c ∈ q.data, 0 ≤ c) ∧
  (q.qtype = QType.fill_in_blank →
      q.options = [] ∧ (q.data = [] ∨ ∃ n : Int, q.data = [n]))

theorem parseDataLinesF_eq (t : QType) (fuel : Nat) (ls : List Str) (q : Question)
    (h : ls.length < fuel) :
    parseDataLinesF t fuel ls q = some (parseDataLines t ls q) := by
  induction fuel generalizing ls q with
  | zero => omega
  | succ fuel ih =>
    match ls with
    | [] => simp [parseDataLinesF, parseDataLines]
    | l :: rest =>
      have hr : rest.length < fuel := by simpa using Nat.lt_of_succ_lt_succ h
      simp only [parseDataLinesF, parseDataLines]
      split
      · exact ih rest q hr
      · split
        · rfl
        · split
          · rfl
          · split
            · exact ih rest _ hr
            · exact ih rest q hr

theorem parseLoopF_eq (fuel : Nat) (ls : List Str) (cur : Option (Str × Question))
    (acc : Survey) (h : ls.length < fuel) :
    parseLoopF fuel ls cur acc = some (parseLoop ls cur acc) := by
  induction fuel generalizing ls cur acc with
  | zero => omega
  | succ fuel ih =>
    match ls with
    | [] => rw [parseLoop]; rfl
    | l :: rest =>
      have hr : rest.length < fuel := by simpa using Nat.lt_of_succ_lt_succ h
      rw [parseLoop]
      simp only [parseLoopF]
      split
      · split
        · exact ih rest cur _ hr
        · rw [parseDataLinesF_eq _ _ _ _ hr]
          exact ih _ _ _ (Nat.lt_of_le_of_lt (parseDataLines_length_le _ _ _) hr)
      · exact ih rest cur acc hr

/-- Evaluation bridge: a run of the fuel-counted parser with fuel one more than
the number of lines computes `parse_md_metadata_with_data`. -/
theorem parse_eval (md : Str) (s : Survey)
    (h : parseLoopF ((splitLines md).length + 1) (splitLines md) none [] = some s) :
    parse_md_metadata_with_data md = s := by
  have h2 := parseLoopF_eq ((splitLines md).length + 1) (splitLines md) none []
      (Nat.lt_succ_self _)
  rw [h] at h2
  exact (Option.some_inj.mp h2).symm

theorem mem_dictInsert (d : Survey) (k : Str) (v : Question) (p : Str × Question)
    (hp : p ∈ dictInsert d k v) : p ∈ d ∨ p = (k, v) := by
  unfold dictInsert at hp
  split at hp
  · rcases List.mem_map.mp hp with ⟨q, hq, hqe⟩
    by_cases h : q.1 = k
    · right; simp only [h, if_pos] at hqe; exact hqe.symm
    · left; simp only [h, if_neg, not_false_iff] at hqe; exact hqe ▸ hq
  · rcases List.mem_append.mp hp with h | h
    · exact Or.inl h
    · right; simpa using h

theorem mem_saveCur (cur : Option (Str × Question)) (acc : Survey) (p : Str × Question)
    (hp : p ∈ saveCur cur acc) :
    p ∈ acc ∨ ∃ tq, cur = some tq ∧ p = (tq.1, tq.2) := by
  match cur with
  | none => exact Or.inl hp
  | some (t, q) =>
    rcases mem_dictInsert acc t q p hp with h | h
    · exact Or.inl h
    · exact Or.inr ⟨(t, q), rfl, h⟩

theorem parseDataLines_shape (t : QType) (ls : List Str) (q : Question)
    (hq : ShapeInv q) (ht : q.qtype = t) : ShapeInv (parseDataLines t ls q).2 := by
  induction ls generalizing q with
  | nil => simpa [parseDataLines] using hq
  | cons l rest ih =>
    simp only [parseDataLines]
    split
    · exact ih q hq ht
    · split
      · exact hq
      · split
        · rename_i hfib
          refine ⟨fun hne => absurd (ht.trans hfib) hne, fun _ => ?_⟩
          exact ⟨(hq.2 (ht.trans hfib)).1, Or.inr ⟨_, rfl⟩⟩
        · rename_i hnfib
          split
          · rename_i o n _
            refine ih _ ⟨fun _ => ?_, fun hfib => absurd (hfib ▸ ht.symm ▸ rfl) hnfib⟩ ht
            have hsh := hq.1 (fun hf => hnfib (ht ▸ hf))
            constructor
            · simp [hsh.1]
            · intro c hc
              rcases List.mem_append.mp hc with h | h
              · exact hsh.2 c h
              · simp only [List.mem_singleton] at h
                exact h ▸ Int.natCast_nonneg n
          · exact ih q hq ht

theorem saveCur_shape (cur : Option (Str × Question)) (acc : Survey)
    (hcur : ∀ tq, cur = some tq → ShapeInv tq.2)
    (hacc : ∀ p ∈ acc, ShapeInv p.2) :
    ∀ p ∈ saveCur cur acc, ShapeInv p.2 := by
  intro p hp
  rcases mem_saveCur cur acc p hp with h | ⟨tq, hc, hpe⟩
  · exact hacc p h
  · exact hpe ▸ hcur tq hc

theorem ShapeInv_fresh (txt : Str) (t : QType) : ShapeInv ⟨txt, t, [], []⟩ :=
  ⟨fun _ => ⟨rfl, fun c hc => absurd hc (List.not_mem_nil c)⟩, fun _ => ⟨rfl, Or.inl rfl⟩⟩

theorem parseLoop_shape : ∀ (n : Nat) (ls : List Str), ls.length ≤ n →
    ∀ (cur : Option (Str × Question)) (acc : Survey),
    (∀ tq, cur = some tq → ShapeInv tq.2) →
    (∀ p ∈ acc, ShapeInv p.2) →
    ∀ p ∈ parseLoop ls cur acc, ShapeInv p.2 := by
  intro n
  induction n with
  | zero =>
    intro ls hls cur acc hcur hacc p hp
    have hnil : ls = [] := List.length_eq_zero.mp (Nat.le_zero.mp hls)
    subst hnil
    rw [parseLoop] at hp
    exact saveCur_shape cur acc hcur hacc p hp
  | succ n ih =>
    intro ls hls cur acc hcur hacc p hp
    match ls with
    | [] =>
      rw [parseLoop] at hp
      exact saveCur_shape cur acc hcur hacc p hp
    | l :: rest =>
      have hr : rest.length ≤ n := by simpa using Nat.le_of_succ_le_succ hls
      rw [parseLoop] at hp
      by_cases hline : isQuestionHeader (pyStrip l) = true
      · simp only [hline, if_pos] at hp
        cases hfind : findQType (pyStrip l) with
        | none =>
          rw [hfind] at hp
          exact ih rest hr cur _ hcur (saveCur_shape cur acc hcur hacc) p hp
        | some t =>
          rw [hfind] at hp
          refine ih _ ?_ _ _ (fun tq htq => ?_) (saveCur_shape cur acc hcur hacc) p hp
          · exact Nat.le_trans (parseDataLines_length_le t rest _) hr
          · obtain rfl := (Option.some_inj.mp htq).symm
            exact parseDataLines_shape t rest _ (ShapeInv_fresh _ t) rfl
      · simp only [hline, if_neg] at hp
        exact ih rest hr cur acc hcur hacc p hp

/-- On a FillInBlank block the nested scan (source lines 100-108) stores at
most one count, parsed by Python `int` from the first non-empty data line with
0 as the fallback, and never touches the options; `data` stays as it was when
the block has no data line before the next header. -/
theorem parseDataLines_fib (ls : List Str) (q : Question) :
    (parseDataLines QType.fill_in_blank ls q).2.options = q.options ∧
    (parseDataLines QType.fill_in_blank ls q).2.data =
      (match ((ls.map pyStrip).filter (fun dl => !dl.isEmpty)).head? with
       | none => q.data
       | some dl => if isQuestionHeader dl then q.data else [(pyInt dl).getD 0]) := by
  induction ls generalizing q with
  | nil => simp [parseDataLines]
  | cons l rest ih =>
    simp only [parseDataLines, List.map_cons, List.filter_cons]
    by_cases h1 : pyStrip l = []
    · simpa [h1] using ih q
    · by_cases h2 : isQuestionHeader (pyStrip l) = true
      · simp [h1, h2, List.isEmpty_iff]
      · simp [h1, h2, List.isEmpty_iff]

/-- C1 (amended): every question in the mapping returned by
`parse_md_metadata_with_data` satisfies the data-model shape invariant: for
SingleChoice, MultipleChoice and Rating questions the options and counts are
parallel sequences and every count is a non-negative integer; for FillInBlank
questions the options are empty and the counts are a single entry (the integer
parsed from the one data line, which may be negative, with 0 as the fallback
when that line does not parse) or empty. -/
theorem C1_parse_shape_invariant (md : Str) :
    ∀ p ∈ parse_md_metadata_with_data md,
      (p.2.qtype ≠ QType.fill_in_blank →
          p.2.options.length = p.2.data.length ∧ ∀ c ∈ p.2.data, 0 ≤ c) ∧
      (p.2.qtype = QType.fill_in_blank →
          p.2.options = [] ∧ (p.2.data = [] ∨ ∃ n : Int, p.2.data = [n])) :=
  fun p hp =>
    parseLoop_shape (splitLines md).length (splitLines md) (Nat.le_refl _) none []
      (fun _ h => Option.noConfusion h) (fun q h => absurd h (List.not_mem_nil q)) p hp

/-- C1 counterexample: the claim as stated asserts that every entry of counts
is non-negative, but the document whose FillInBlank data line is "-5" parses
(via Python `int`) to a question holding the negative count -5. -/
theorem C1_counterexample :
    ∃ p ∈ parse_md_metadata_with_data (("问题1:【填空题】T\n-5").toList),
      ∃ c ∈ p.2.data, c < 0 := by
  rw [parse_eval (("问题1:【填空题】T\n-5").toList)
      [(['T'], ⟨['T'], QType.fill_in_blank, [], [-5]⟩)] (by decide)]
  decide

/-- C1 witness: the shape invariant instantiated at a concrete parsed
question. -/
theorem C1_parse_shape_invariant_witness :
    (QType.single_choice ≠ QType.fill_in_blank →
        ([['A']] : List Str).length = ([(1 : Int)] : List Int).length ∧
          ∀ c ∈ ([(1 : Int)] : List Int), 0 ≤ c) ∧
    (QType.single_choice = QType.fill_in_blank →
        ([['A']] : List Str) = [] ∧
          (([(1 : Int)] : List Int) = [] ∨ ∃ n : Int, ([(1 : Int)] : List Int) = [n])) :=
  C1_parse_shape_invariant (("问题1:【单选题】Q\nA: 1").toList)
    (['Q'], ⟨['Q'], QType.single_choice, [['A']], [1]⟩)
    (by rw [parse_eval (("问题1:【单选题】Q\nA: 1").toList)
          [(['Q'], ⟨['Q'], QType.single_choice, [['A']], [1]⟩)] (by decide)]
        decide)

theorem summary_foldl_spec (qs : List (Str × Question)) (a : Int) (x y : Nat) (ha : 0 ≤ a) :
    qs.foldl summaryStep (a, x, y) =
      ((qs.map (fun p => summaryCandidate p.2)).foldl max a,
       x + (qs.filter (fun p => p.2.qtype ≠ QType.fill_in_blank)).length,
       y + (qs.filter (fun p => p.2.qtype = QType.fill_in_blank)).length) := by
  induction qs generalizing a x y with
  | nil => simp
  | cons p rest ih =>
    by_cases hf : p.2.qtype = QType.fill_in_blank
    · by_cases hd : p.2.data = []
      · have hstep : summaryStep (a, x, y) p = (a, x, y + 1) := by
          simp [summaryStep, hf, hd]
        have hcand : summaryCandidate p.2 = 0 := by simp [summaryCandidate, hf, hd]
        simp only [List.foldl_cons, hstep, List.map_cons, hcand, List.filter_cons]
        rw [ih a x (y + 1) ha]
        simp only [Prod.mk.injEq]
        refine ⟨by simp [max_eq_left ha], by simp [hf], by simp [hf]; omega⟩
      · have hstep : summaryStep (a, x, y) p = (max a (p.2.data.headD 0), x, y + 1) := by
          simp [summaryStep, hf, hd]
        have hcand : summaryCandidate p.2 = p.2.data.headD 0 := by
          simp [summaryCandidate, hf]
        simp only [List.foldl_cons, hstep, List.map_cons, hcand, List.filter_cons]
        rw [ih _ x (y + 1) (le_trans ha (le_max_left _ _))]
        simp only [Prod.mk.injEq]
        refine ⟨by simp, by simp [hf], by simp [hf]; omega⟩
    · by_cases hd : p.2.data = []
      · have hstep : summaryStep (a, x, y) p = (a, x + 1, y) := by
          simp [summaryStep, hf, hd]
        have hcand : summaryCandidate p.2 = 0 := by simp [summaryCandidate, hf, hd]
        simp only [List.foldl_cons, hstep, List.map_cons, hcand, List.filter_cons]
        rw [ih a (x + 1) y ha]
        simp only [Prod.mk.injEq]
        refine ⟨by simp [max_eq_left ha], by simp [hf]; omega, by simp [hf]⟩
      · have hstep : summaryStep (a, x, y) p = (max a p.2.data.sum, x + 1, y) := by
          simp [summaryStep, hf, hd]
        have hcand : summaryCandidate p.2 = p.2.data.sum := by
          simp [summaryCandidate, hf]
        simp only [List.foldl_cons, hstep, List.map_cons, hcand, List.filter_cons]
        rw [ih _ (x + 1) y (le_trans ha (le_max_left _ _))]
        simp only [Prod.mk.injEq]
        refine ⟨by simp, by simp [hf]; omega, by simp [hf]⟩

/-- C3 (amended): for every nonempty survey, `generate_summary_report` returns
skipped equal to the number of FillInBlank questions, analyzed equal to the
number of questions of any other type, and total_responses equal to the
maximum of 0 and the per-question candidates (the single stored count of a
FillInBlank question, the sum of counts otherwise); on the empty survey the
function returns `none` instead of a summary. -/
theorem C3_summary_report (qs : Survey) (h : qs ≠ []) :
    generate_summary_report qs =
      some ⟨(qs.map (fun p => summaryCandidate p.2)).foldl max 0,
            (qs.filter (fun p => p.2.qtype ≠ QType.fill_in_blank)).length,
            (qs.filter (fun p => p.2.qtype = QType.fill_in_blank)).length⟩ := by
  simp only [generate_summary_report, h, if_neg]
  rw [summary_foldl_spec qs 0 0 0 (le_refl 0)]
  simp

/-- C3 counterexample: the claim covers the empty survey with total_responses
0, but `generate_summary_report` returns `None` on the empty survey rather
than any summary record. -/
theorem C3_counterexample :
    generate_summary_report ([] : Survey) = none ∧
    ∀ s : Summary, generate_summary_report ([] : Survey) ≠ some s :=
  ⟨rfl, fun _ h => Option.noConfusion h⟩

/-- C3 witness: the summary of a concrete two-question survey. -/
theorem C3_summary_report_witness :
    ([(['T'], ⟨['T'], QType.fill_in_blank, [], [37]⟩),
      (['Q'], ⟨['Q'], QType.rating, [['5']], [2]⟩)] : Survey) ≠ [] ∧
    generate_summary_report
        [(['T'], ⟨['T'], QType.fill_in_blank, [], [37]⟩),
         (['Q'], ⟨['Q'], QType.rating, [['5']], [2]⟩)]
      = some ⟨37, 1, 1⟩ := by
  refine ⟨by decide, ?_⟩
  rw [C3_summary_report
      [(['T'], ⟨['T'], QType.fill_in_blank, [], [37]⟩),
       (['Q'], ⟨['Q'], QType.rating, [['5']], [2]⟩)] (by decide)]
  decide

theorem rating_foldl_spec (l : List (Str × Int)) (a b : Int) :
    l.foldl ratingStep (a, b) =
      (a + ((l.filterMap (fun oc => (pyInt oc.1).map (fun r => (r, oc.2)))).map
              (fun rc => rc.1 * rc.2)).sum,
       b + ((l.filterMap (fun oc => (pyInt oc.1).map (fun r => (r, oc.2)))).map
              (fun rc => rc.2)).sum) := by
  induction l generalizing a b with
  | nil => simp
  | cons oc rest ih =>
    simp only [List.foldl_cons, List.filterMap_cons]
    cases h : pyInt oc.1 with
    | none =>
      simp only [ratingStep, h, Option.map_none']
      rw [ih]
    | some r =>
      simp only [ratingStep, h, Option.map_some', List.map_cons, List.sum_cons]
      rw [ih]
      simp only [Prod.mk.injEq]
      constructor <;> ring

/-- C4: the weighted rating average of a rating question equals
sum(rating*count) / sum(count) over exactly those (option, count) pairs whose
label parses as an integer, pairs failing to parse being silently excluded
from both numerator and denominator; the average is `none` (omitted rather
than an error) precisely when no pair parses or the included total count is
zero. -/
theorem C4_weighted_rating_average (options : List Str) (data : List Int)
    (hnn : ∀ c ∈ data, 0 ≤ c) :
    (weightedRatingAverage options data = none ↔
        includedRatingPairs options data = [] ∨
        ((includedRatingPairs options data).map (fun rc => rc.2)).sum = 0) ∧
    (((includedRatingPairs options data).map (fun rc => rc.2)).sum ≠ 0 →
      weightedRatingAverage options data =
        some (((((includedRatingPairs options data).map (fun rc => rc.1 * rc.2)).sum : Int) : ℚ) /
              ((((includedRatingPairs options data).map (fun rc => rc.2)).sum : Int) : ℚ))) := by
  have hval : ∀ rc ∈ includedRatingPairs options data, 0 ≤ rc.2 := by
    intro rc hrc
    rcases List.mem_filterMap.mp hrc with ⟨oc, hoc, hmap⟩
    cases h : pyInt oc.1 with
    | none => rw [h] at hmap; simp at hmap
    | some r =>
      rw [h] at hmap
      simp only [Option.map_some'] at hmap
      obtain rfl := Option.some_inj.mp hmap
      exact hnn oc.2 (List.of_mem_zip hoc).2
  have hC0 : 0 ≤ ((includedRatingPairs options data).map (fun rc => rc.2)).sum := by
    apply List.sum_nonneg
    intro c hc
    rcases List.mem_map.mp hc with ⟨rc, hrc, rfl⟩
    exact hval rc hrc
  have heval : weightedRatingAverage options data =
      if 0 < ((includedRatingPairs options data).map (fun rc => rc.2)).sum then
        some (((((includedRatingPairs options data).map (fun rc => rc.1 * rc.2)).sum : Int) : ℚ) /
              ((((includedRatingPairs options data).map (fun rc => rc.2)).sum : Int) : ℚ))
      else none := by
    simp only [weightedRatingAverage, includedRatingPairs]
    rw [rating_foldl_spec]
    simp only [zero_add]
  rw [heval]
  refine ⟨⟨fun hnone => ?_, fun hor => ?_⟩, fun hne => ?_⟩
  · split at hnone
    · exact Option.noConfusion hnone
    · rename_i hle
      right
      omega
  · have hC : ((includedRatingPairs options data).map (fun rc => rc.2)).sum = 0 := by
      rcases hor with h | h
      · rw [h]; rfl
      · exact h
    rw [if_neg]
    omega
  · rw [if_pos]
    omega

/-- C4 witness: the average of a concrete rating question with one unparsable
option label. -/
theorem C4_weighted_rating_average_witness :
    (∀ c ∈ ([52, 11, 4] : List Int), 0 ≤ c) ∧
    weightedRatingAverage [['1'], ['2'], ['x']] [52, 11, 4] = some (74 / 63) := by
  refine ⟨by decide, ?_⟩
  have h := (C4_weighted_rating_average [['1'], ['2'], ['x']] [52, 11, 4] (by decide)).2
      (by decide)
  rw [h]
  have h1 : (List.map (fun rc => rc.1 * rc.2)
      (includedRatingPairs [['1'], ['2'], ['x']] [52, 11, 4])).sum = (74 : Int) := by decide
  have h2 : (List.map (fun rc => rc.2)
      (includedRatingPairs [['1'], ['2'], ['x']] [52, 11, 4])).sum = (63 : Int) := by decide
  rw [h1, h2]
  exact congrArg some (by norm_num)

theorem mem_insertBySimDesc (x a : MatchPair) (l : List MatchPair) :
    a ∈ insertBySimDesc x l ↔ a = x ∨ a ∈ l := by
  induction l with
  | nil => simp [insertBySimDesc]
  | cons y ys ih =>
    simp only [insertBySimDesc]
    split
    · simp only [List.mem_cons, ih]
      tauto
    · simp only [List.mem_cons]

theorem mem_sortBySimDesc (a : MatchPair) (l : List MatchPair) :
    a ∈ sortBySimDesc l ↔ a ∈ l := by
  induction l with
  | nil => simp [sortBySimDesc]
  | cons x xs ih =>
    simp only [sortBySimDesc, List.foldr_cons] at *
    rw [mem_insertBySimDesc, ih, List.mem_cons]

theorem sorted_insertBySimDesc (x : MatchPair) (l : List MatchPair)
    (hl : List.Sorted (fun a b => b.similarity ≤ a.similarity) l) :
    List.Sorted (fun a b => b.similarity ≤ a.similarity) (insertBySimDesc x l) := by
  induction l with
  | nil => simp [insertBySimDesc]
  | cons y ys ih =>
    have hl2 := List.sorted_cons.mp hl
    simp only [insertBySimDesc]
    split
    · rename_i hlt
      rw [List.sorted_cons]
      refine ⟨fun b hb => ?_, ih hl2.2⟩
      rcases (mem_insertBySimDesc x b ys).mp hb with rfl | hb2
      · exact le_of_lt hlt
      · exact hl2.1 b hb2
    · rename_i hge
      push_neg at hge
      rw [List.sorted_cons]
      refine ⟨fun b hb => ?_, hl⟩
      rcases List.mem_cons.mp hb with rfl | hb2
      · exact hge
      · exact le_trans (hl2.1 b hb2) hge

theorem filter_insertBySimDesc (x : MatchPair) (l : List MatchPair) (s : ℚ) :
    (insertBySimDesc x l).filter (fun p => p.similarity = s) =
      if x.similarity = s then x :: l.filter (fun p => p.similarity = s)
      else l.filter (fun p => p.similarity = s) := by
  induction l with
  | nil => by_cases hx : x.similarity = s <;> simp [insertBySimDesc, List.filter_cons, hx]
  | cons y ys ih =>
    simp only [insertBySimDesc]
    split
    · rename_i hlt
      simp only [List.filter_cons, ih]
      by_cases hx : x.similarity = s
      · have hy : ¬(y.similarity = s) := by
          rw [hx] at hlt
          intro h
          exact absurd (h ▸ hlt) (lt_irrefl s)
        simp [hx, hy]
      · simp [hx]
    · simp only [List.filter_cons]
      by_cases hx : x.similarity = s <;> simp [hx]

theorem filter_sortBySimDesc (l : List MatchPair) (s : ℚ) :
    (sortBySimDesc l).filter (fun p => p.similarity = s)
      = l.filter (fun p => p.similarity = s) := by
  induction l with
  | nil => rfl
  | cons x xs ih =>
    simp only [sortBySimDesc, List.foldr_cons] at *
    rw [filter_insertBySimDesc]
    by_cases hx : x.similarity = s <;> simp [hx, ih, List.filter_cons]

theorem sorted_sortBySimDesc (l : List MatchPair) :
    List.Sorted (fun a b => b.similarity ≤ a.similarity) (sortBySimDesc l) := by
  induction l with
  | nil => simp [sortBySimDesc]
  | cons x xs ih =>
    simp only [sortBySimDesc, List.foldr_cons] at *
    exact sorted_insertBySimDesc x _ ih

/-- C2: `find_matching_questions` returns exactly the pairs (q1 from survey1,
q2 from survey2) with equal question type, the type not FillInBlank, and
Jaccard similarity of the segmented token sets of their texts strictly greater
than the 0.6 threshold; in particular no returned pair involves a FillInBlank
question and none has similarity at or below the threshold. -/
theorem C2_matching_pairs (seg : Str → List Str) (qs cqs : Survey) (p : MatchPair) :
    p ∈ find_matching_questions seg qs cqs ↔
      ∃ t1 q1 t2 q2, (t1, q1) ∈ qs ∧ (t2, q2) ∈ cqs ∧
        q1.qtype = q2.qtype ∧ q1.qtype ≠ QType.fill_in_blank ∧
        3 / 5 < calculate_text_similarity seg t1 t2 ∧
        p = ⟨t1, t2, q1.qtype, calculate_text_similarity seg t1 t2, q1, q2⟩ := by
  unfold find_matching_questions
  split
  · rename_i hempty
    simp only [List.not_mem_nil, false_iff]
    push_neg
    intro t1 q1 t2 q2 h1 h2
    rcases hempty with h | h
    · rw [h] at h1
      exact absurd h1 (List.not_mem_nil _)
    · rw [h] at h2
      exact absurd h2 (List.not_mem_nil _)
  · rw [mem_sortBySimDesc]
    unfold matchingPairsUnsorted
    rw [List.mem_flatMap]
    constructor
    · rintro ⟨p1, hp1, hp⟩
      rw [List.mem_filterMap] at hp
      rcases hp with ⟨p2, hp2, hf⟩
      simp only at hf
      split at hf
      · rename_i hcond
        split at hf
        · rename_i hsim
          exact ⟨p1.1, p1.2, p2.1, p2.2, hp1, hp2, hcond.1, hcond.2, hsim,
            (Option.some_inj.mp hf).symm⟩
        · exact Option.noConfusion hf
      · exact Option.noConfusion hf
    · rintro ⟨t1, q1, t2, q2, h1, h2, hty, hnf, hsim, rfl⟩
      refine ⟨(t1, q1), h1, List.mem_filterMap.mpr ⟨(t2, q2), h2, ?_⟩⟩
      rw [if_pos ⟨hty, hnf⟩]
      exact if_pos hsim

theorem matchingPairsUnsorted_nil_right (seg : Str → List Str) (qs : Survey) :
    matchingPairsUnsorted seg qs [] = [] := by
  unfold matchingPairsUnsorted
  induction qs with
  | nil => rfl
  | cons p rest ih => simp only [List.flatMap_cons, List.filterMap_nil, List.nil_append]; exact ih

/-- C8: the sequence of matched pairs is sorted by similarity in descending
order, and pairs of equal similarity keep their original encounter order (the
iteration order of survey1's questions in the outer loop and survey2's in the
inner loop), stated as filter-stability against the unsorted encounter-order
list of candidate pairs. -/
theorem C8_matching_sorted_stable (seg : Str → List Str) (qs cqs : Survey) :
    List.Sorted (fun a b => b.similarity ≤ a.similarity)
        (find_matching_questions seg qs cqs) ∧
    ∀ s : ℚ, (find_matching_questions seg qs cqs).filter (fun p => p.similarity = s)
      = (matchingPairsUnsorted seg qs cqs).filter (fun p => p.similarity = s) := by
  unfold find_matching_questions
  split
  · rename_i hempty
    refine ⟨List.sorted_nil, fun s => ?_⟩
    rcases hempty with h | h <;> subst h
    · have hz : matchingPairsUnsorted seg [] cqs = [] := rfl
      rw [hz]
    · rw [matchingPairsUnsorted_nil_right]
  · exact ⟨sorted_sortBySimDesc _, fun s => filter_sortBySimDesc _ s⟩

theorem indexOf_cons_eq (a b : Str) (l : List Str) :
    List.indexOf a (b :: l) = if b = a then 0 else List.indexOf a l + 1 := by
  rw [List.indexOf_cons]
  rcases h : b == a with _ | _
  · have hne : ¬b = a := by
      intro he
      subst he
      simp at h
    rw [if_neg hne]
    rfl
  · have heq : b = a := by simpa using h
    rw [if_pos heq]
    rfl

theorem indexOf_lt_length_of_mem (o : Str) (l : List Str) (h : o ∈ l) :
    List.indexOf o l < l.length := by
  induction l with
  | nil => simp at h
  | cons a rest ih =>
    rw [indexOf_cons_eq]
    by_cases ha : a = o
    · simp [ha]
    · rcases List.mem_cons.mp h with rfl | hm
      · exact absurd rfl ha
      · simp only [if_neg ha, List.length_cons]
        exact Nat.succ_lt_succ (ih hm)

theorem getD_indexOf (o : Str) (l : List Str) (h : o ∈ l) :
    l.getD (List.indexOf o l) [] = o := by
  induction l with
  | nil => simp at h
  | cons a rest ih =>
    rw [indexOf_cons_eq]
    by_cases ha : a = o
    · simp [ha]
    · rcases List.mem_cons.mp h with rfl | hm
      · exact absurd rfl ha
      · simp only [if_neg ha, List.getD_cons_succ]
        exact ih hm

theorem getD_ne_of_lt_indexOf (l : List Str) (o : Str) (k : Nat)
    (hk : k < List.indexOf o l) : l.getD k [] ≠ o := by
  induction l generalizing k with
  | nil => rw [List.indexOf_nil] at hk; omega
  | cons a rest ih =>
    rw [indexOf_cons_eq] at hk
    by_cases ha : a = o
    · rw [if_pos ha] at hk
      omega
    · rw [if_neg ha] at hk
      match k with
      | 0 => simpa using ha
      | k + 1 =>
        simp only [List.getD_cons_succ]
        exact ih k (by omega)

/-- Specification predicate taken from the claim's wording: position-wise,
`counts` holds the count paired in `data` with the first occurrence of the
option in `opts` when the option is present on that side, and 0 otherwise. -/
def alignedCountsSpec (opts : List Str) (data : List Int)
    (allOpts : List Str) (counts : List Int) : Prop :=
  counts.length = allOpts.length ∧
  ∀ i, i < allOpts.length →
    (allOpts.getD i [] ∈ opts →
      ∃ j, j < opts.length ∧ opts.getD j [] = allOpts.getD i [] ∧
        (∀ k, k < j → opts.getD k [] ≠ allOpts.getD i []) ∧
        counts.getD i 0 = data.getD j 0) ∧
    (allOpts.getD i [] ∉ opts → counts.getD i 0 = 0)

theorem alignedCountsSpec_map (opts : List Str) (data : List Int) (allOpts : List Str) :
    alignedCountsSpec opts data allOpts
      (allOpts.map (fun o => if o ∈ opts then data.getD (opts.indexOf o) 0 else 0)) := by
  refine ⟨List.length_map _ _, fun i hi => ?_⟩
  have hmapi : i < (allOpts.map
      (fun o => if o ∈ opts then data.getD (opts.indexOf o) 0 else 0)).length := by
    simpa using hi
  have hC : (allOpts.map (fun o => if o ∈ opts then data.getD (opts.indexOf o) 0 else 0)).getD i 0
      = (if allOpts.getD i [] ∈ opts then data.getD (opts.indexOf (allOpts.getD i [])) 0 else 0) := by
    rw [List.getD_eq_getElem _ _ hmapi, List.getElem_map, List.getD_eq_getElem _ _ hi]
  constructor
  · intro hmem
    refine ⟨List.indexOf (allOpts.getD i []) opts, indexOf_lt_length_of_mem _ opts hmem,
      getD_indexOf _ opts hmem, fun k hk => getD_ne_of_lt_indexOf opts _ k hk, ?_⟩
    rw [hC, if_pos hmem]
  · intro hnm
    rw [hC, if_neg hnm]

/-- C5: the aligned options form the duplicate-free union of both sides'
options — every option of either input occurs exactly once and the length is
the cardinality of the set union — and position-wise each counts sequence
holds the count at the first occurrence of that option on its side, or 0 when
the option is absent from that side. -/
theorem C5_alignment (opts1 : List Str) (data1 : List Int)
    (opts2 : List Str) (data2 : List Int)
    (_hp1 : opts1.length = data1.length) (_hp2 : opts2.length = data2.length) :
    (alignOptions opts1 data1 opts2 data2).1.Nodup ∧
    (∀ o, o ∈ (alignOptions opts1 data1 opts2 data2).1 ↔ o ∈ opts1 ∨ o ∈ opts2) ∧
    (alignOptions opts1 data1 opts2 data2).1.length
        = (opts1.toFinset ∪ opts2.toFinset).card ∧
    alignedCountsSpec opts1 data1 (alignOptions opts1 data1 opts2 data2).1
        (alignOptions opts1 data1 opts2 data2).2.1 ∧
    alignedCountsSpec opts2 data2 (alignOptions opts1 data1 opts2 data2).1
        (alignOptions opts1 data1 opts2 data2).2.2 := by
  refine ⟨List.nodup_dedup _, fun o => ?_, ?_, ?_, ?_⟩
  · simp [alignOptions, pySetList, List.mem_dedup]
  · simp only [alignOptions, pySetList]
    rw [← List.toFinset_append, List.card_toFinset]
  · exact alignedCountsSpec_map opts1 data1 _
  · exact alignedCountsSpec_map opts2 data2 _

/-- C5 witness: aligning two concrete single-option questions with disjoint
options. -/
theorem C5_alignment_witness :
    (([['A']] : List Str).length = ([10] : List Int).length ∧
     ([['B']] : List Str).length = ([20] : List Int).length) ∧
    ((alignOptions [['A']] [10] [['B']] [20]).1.Nodup ∧
     (∀ o, o ∈ (alignOptions [['A']] [10] [['B']] [20]).1 ↔
        o ∈ ([['A']] : List Str) ∨ o ∈ ([['B']] : List Str)) ∧
     (alignOptions [['A']] [10] [['B']] [20]).1.length
        = (([['A']] : List Str).toFinset ∪ ([['B']] : List Str).toFinset).card ∧
     alignedCountsSpec [['A']] [10] (alignOptions [['A']] [10] [['B']] [20]).1
        (alignOptions [['A']] [10] [['B']] [20]).2.1 ∧
     alignedCountsSpec [['B']] [20] (alignOptions [['A']] [10] [['B']] [20]).1
        (alignOptions [['A']] [10] [['B']] [20]).2.2) :=
  ⟨⟨rfl, rfl⟩, C5_alignment [['A']] [10] [['B']] [20] rfl rfl⟩

/-- C6: within a non-FillInBlank question block, the data lines before the
next header contribute exactly the (label, count) pairs recognized by the
option-colon-digits pattern, in order: a data line containing a colon whose
regex search finds a digit run after a colon-space appends the trimmed text
before the first colon as the option label and that digit run as the count
(any parenthetical suffix such as a percentage annotation being ignored by the
search); data lines not matching the pattern are skipped without being
recorded. -/
theorem C6_option_data_lines (t : QType) (ls : List Str) (q : Question)
    (ht : t ≠ QType.fill_in_blank) :
    (parseDataLines t ls q).2.options
        = q.options ++ ((dataRegion ls).filterMap
            (fun l => parseOptionLine (pyStrip l))).map (fun oc => oc.1) ∧
    (parseDataLines t ls q).2.data
        = q.data ++ ((dataRegion ls).filterMap
            (fun l => parseOptionLine (pyStrip l))).map (fun oc => (oc.2 : Int)) := by
  induction ls generalizing q with
  | nil => simp [parseDataLines, dataRegion]
  | cons l rest ih =>
    by_cases hdl : pyStrip l = []
    · have hh2 : isQuestionHeader (pyStrip l) = false := by rw [hdl]; rfl
      have hopt : parseOptionLine (pyStrip l) = none := by rw [hdl]; rfl
      have hstep : parseDataLines t (l :: rest) q = parseDataLines t rest q := by
        simp [parseDataLines, hdl]
      have hreg : dataRegion (l :: rest) = l :: dataRegion rest := by
        simp [dataRegion, List.takeWhile_cons, hh2]
      rw [hstep, hreg]
      simp only [List.filterMap_cons, hopt]
      exact ih q
    · by_cases hh : isQuestionHeader (pyStrip l) = true
      · have hstep : parseDataLines t (l :: rest) q = (l :: rest, q) := by
          simp [parseDataLines, hdl, hh]
        have hreg : dataRegion (l :: rest) = [] := by
          simp [dataRegion, List.takeWhile_cons, hh]
        rw [hstep, hreg]
        simp
      · have hh2 : isQuestionHeader (pyStrip l) = false := by
          revert hh
          cases isQuestionHeader (pyStrip l) <;> simp
        cases hopt : parseOptionLine (pyStrip l) with
        | none =>
          have hstep : parseDataLines t (l :: rest) q = parseDataLines t rest q := by
            simp [parseDataLines, hdl, hh2, ht, hopt]
          have hreg : dataRegion (l :: rest) = l :: dataRegion rest := by
            simp [dataRegion, List.takeWhile_cons, hh2]
          rw [hstep, hreg]
          simp only [List.filterMap_cons, hopt]
          exact ih q
        | some onc =>
          obtain ⟨o, n⟩ := onc
          have hstep : parseDataLines t (l :: rest) q
              = parseDataLines t rest
                  { q with options := q.options ++ [o], data := q.data ++ [(n : Int)] } := by
            simp [parseDataLines, hdl, hh2, ht, hopt]
          have hreg : dataRegion (l :: rest) = l :: dataRegion rest := by
            simp [dataRegion, List.takeWhile_cons, hh2]
          rw [hstep, hreg]
          simp only [List.filterMap_cons, hopt, List.map_cons]
          rcases ih { q with options := q.options ++ [o], data := q.data ++ [(n : Int)] }
            with ⟨ho, hd⟩
          constructor
          · rw [ho]
            simp
          · rw [hd]
            simp

/-- C6 witness: a concrete block with a percentage-annotated line, a
non-matching line and a header stopping the region. -/
theorem C6_option_data_lines_witness :
    (QType.single_choice ≠ QType.fill_in_blank) ∧
    ((parseDataLines QType.single_choice
        [("1: 52 (8.64%)").toList, ("junk").toList] ⟨['Q'], QType.single_choice, [], []⟩).2.options
        = [] ++ ((dataRegion [("1: 52 (8.64%)").toList, ("junk").toList]).filterMap
            (fun l => parseOptionLine (pyStrip l))).map (fun oc => oc.1) ∧
     (parseDataLines QType.single_choice
        [("1: 52 (8.64%)").toList, ("junk").toList] ⟨['Q'], QType.single_choice, [], []⟩).2.data
        = [] ++ ((dataRegion [("1: 52 (8.64%)").toList, ("junk").toList]).filterMap
            (fun l => parseOptionLine (pyStrip l))).map (fun oc => (oc.2 : Int))) :=
  ⟨by decide,
   C6_option_data_lines QType.single_choice
     [("1: 52 (8.64%)").toList, ("junk").toList]
     ⟨['Q'], QType.single_choice, [], []⟩ (by decide)⟩

theorem splitLines_append (badline : Str) (md : Str) (h : ¬ '\n' ∈ badline) :
    splitLines (badline ++ '\n' :: md) = badline :: splitLines md := by
  induction badline with
  | nil =>
    simp only [List.nil_append, splitLines, List.foldr_cons]
    simp
  | cons c bl ih =>
    have hc : c ≠ '\n' := fun hh => h (hh ▸ List.mem_cons_self c bl)
    have hbl : ¬ '\n' ∈ bl := fun hh => h (List.mem_cons_of_mem c hh)
    simp only [List.cons_append, splitLines, List.foldr_cons] at *
    rw [ih hbl, if_neg hc]

/-- C7 (amended): a line starting with the question marker whose bracketed tag
matches none of the four recognized type labels is consumed (the cursor
advances by one) and is itself never recorded; at the start of a document such
a line has no effect at all on the parse result.  Inside a question block,
however, it terminates the block's data collection, so insertion there can
drop the following data lines (see the counterexample). -/
theorem C7_unrecognized_header_skipped (badline : Str) (md : Str)
    (hh : isQuestionHeader (pyStrip badline) = true)
    (hf : findQType (pyStrip badline) = none)
    (hn : ¬ '\n' ∈ badline) :
    parse_md_metadata_with_data (badline ++ '\n' :: md)
      = parse_md_metadata_with_data md := by
  unfold parse_md_metadata_with_data
  rw [splitLines_append badline md hn, parseLoop]
  simp [hh, hf, saveCur]

/-- C7 counterexample: inserting an unrecognized-tag header line inside a
question block changes the parse result: the inserted line breaks the nested
data scan, so the data line after it is dropped instead of being appended to
the open question. -/
theorem C7_counterexample :
    parse_md_metadata_with_data (("问题1:【单选题】Q\nA: 1\n问题:【x】\nB: 2").toList)
      ≠ parse_md_metadata_with_data (("问题1:【单选题】Q\nA: 1\nB: 2").toList) := by
  rw [parse_eval (("问题1:【单选题】Q\nA: 1\n问题:【x】\nB: 2").toList)
      [(['Q'], ⟨['Q'], QType.single_choice, [['A']], [1]⟩)] (by decide),
    parse_eval (("问题1:【单选题】Q\nA: 1\nB: 2").toList)
      [(['Q'], ⟨['Q'], QType.single_choice, [['A'], ['B']], [1, 2]⟩)] (by decide)]
  decide

/-- C7 witness: dropping a concrete unrecognized header at the start of a
document. -/
theorem C7_unrecognized_header_skipped_witness :
    (isQuestionHeader (pyStrip ("问题:【x】").toList) = true ∧
     findQType (pyStrip ("问题:【x】").toList) = none ∧
     ¬ '\n' ∈ ("问题:【x】").toList) ∧
    parse_md_metadata_with_data
        (("问题:【x】").toList ++ '\n' :: ("问题1:【单选题】Q\nA: 1").toList)
      = parse_md_metadata_with_data (("问题1:【单选题】Q\nA: 1").toList) :=
  ⟨⟨by decide, by decide, by decide⟩,
   C7_unrecognized_header_skipped (("问题:【x】").toList)
     (("问题1:【单选题】Q\nA: 1").toList) (by decide) (by decide) (by decide)⟩

/-- C9: parsing terminates on every finite document and the computation is
bounded by the number of input lines: the literal fuel-counted translation of
the two scanning loops, given fuel one more than the number of lines of the
document, never exhausts its fuel and computes `parse_md_metadata_with_data`. -/
theorem C9_parse_terminates_within_line_bound (md : Str) :
    parseLoopF ((splitLines md).length + 1) (splitLines md) none []
      = some (parse_md_metadata_with_data md) :=
  parseLoopF_eq _ _ _ _ (Nat.lt_succ_self _)

/-- C10: the similarity score is symmetric: `calculate_text_similarity` gives
the same value on (text1, text2) and (text2, text1), whatever the tokenizer. -/
theorem C10_similarity_symm (seg : Str → List Str) (text1 text2 : Str) :
    calculate_text_similarity seg text1 text2
      = calculate_text_similarity seg text2 text1 := by
  simp only [calculate_text_similarity]
  rw [Finset.inter_comm, Finset.union_comm]
  simp only [or_comm]

end Questionnaire
